import Mathlib

/-!
Verification of the trajectory playback engine of lab_baxter_common
(file baxter_general_toolkit/python_src/lab_baxter_common/traj_playback/trajectory.py).

The Python code is shallowly embedded over ℚ: recorded times, joint angles and
durations become rationals; a CSV cell becomes the result of the source's
try_float, i.e. an `Option ℚ` (`none` for an empty or non-numeric cell);
fallible code paths (Python KeyError / TypeError / IndexError / ValueError)
become `Option`-valued functions returning `none`.
-/

namespace TrajPlayback

/-- A CSV cell after the source's try_float: some rational, or none when the
cell text was empty or non-numeric. -/
abbrev Cell := Option ℚ

/-- One data row of the recording file, cell by cell (column 0 is the time). -/
abbrev Row := List Cell

/-- A trajectory point, as built by Trajectory._add_point: a list of joint
positions plus a time-from-start scalar. -/
structure Pt where
  positions : List ℚ
  time_from_start : ℚ
deriving DecidableEq

/-- Python name[:-3] == "left": the classification used in parse_file and
find_start_offset to pick out left-arm joint columns. -/
def isLeftName (s : String) : Bool := s.dropRight 3 == "left"

/-- Python name[:-3] == "right": classification of right-arm joint columns. -/
def isRightName (s : String) : Bool := s.dropRight 3 == "right"

/-! ## PhaseDetector: Trajectory._feedback (source lines 220-238)

The shared state touched by the feedback callback is the boolean
`_arm_trajectory_started` and the latched `_trajectory_actual_offset`. A
callback invocation is one atomic run of `_feedback` with the reported
elapsed time `t`. -/

/-- The callback-visible session state: the started flag and the latched
actual offset (sentinel 0 until latched). -/
structure SessionState where
  arm_trajectory_started : Bool
  trajectory_actual_offset : ℚ
deriving DecidableEq

/-- State at session construction (source lines 52 and 77). -/
def initialSession : SessionState := ⟨false, 0⟩

/-- Trajectory._feedback: if the flag is unset and the reported elapsed time
has reached `_trajectory_start_offset`, set the flag and latch the reported
time; otherwise leave the state unchanged. -/
def feedback (trajectory_start_offset : ℚ) (s : SessionState) (t : ℚ) : SessionState :=
  if s.arm_trajectory_started = false ∧ trajectory_start_offset ≤ t then
    ⟨true, t⟩
  else s

/-- A whole session's sequence of callback invocations, folded over the state. -/
def run_feedback (trajectory_start_offset : ℚ) (s : SessionState) (ts : List ℚ) : SessionState :=
  ts.foldl (feedback trajectory_start_offset) s

/-! ## GripperSynchronizer index lookup (source lines 85-101)

The loop computes `idx = bisect.bisect(pnt_times, now_from_start) - 1` and
then indexes `r_cmd[idx]` and `l_cmd[idx]` with Python list-index semantics
(a negative index counts from the end). `bisect.bisect` is Python's
bisect_right, whose contract on a sorted list is the rightmost insertion
point; `bisect_right` below computes exactly that insertion point. -/

/-- Rightmost insertion point of `x` in `l`: the value bisect.bisect returns
on a sorted list. -/
def bisect_right : List ℚ → ℚ → Nat
  | [], _ => 0
  | a :: as, x => if x < a then 0 else bisect_right as x + 1

/-- The index the gripper loop computes: bisect.bisect(pnt_times, t) - 1,
as a (possibly negative) integer. -/
def gripper_index (pnt_times : List ℚ) (t : ℚ) : Int :=
  (bisect_right pnt_times t : Int) - 1

/-- Python list indexing: `l[i]` with a negative `i` counting from the end;
`none` models an IndexError. -/
def pyGet {α : Type} (l : List α) (i : Int) : Option α :=
  if 0 ≤ i then l.get? i.toNat
  else if -i ≤ (l.length : Int) then l.get? ((l.length : Int) + i).toNat
  else none

/-! ## FileParser / StartOffsetCalculator / GoalBuilder:
Trajectory._clean_line, find_start_offset and Trajectory.parse_file
(source lines 103-126 and 149-218). -/

/-- Python max() over a list: ValueError (none) on an empty list, else the
running binary max. -/
def pythonMax : List ℚ → Option ℚ
  | [] => none
  | x :: xs => some (xs.foldl max x)

/-- Evaluate `f` at every element, failing (like the surrounding Python
statement) as soon as one evaluation fails. -/
def mapAll {α β : Type} (f : α → Option β) : List α → Option (List β)
  | [] => some []
  | a :: as =>
    match f a, mapAll f as with
    | some b, some bs => some (b :: bs)
    | _, _ => none

/-- Trajectory._clean_line: zip the joint names (after the time column) with
the row's cells (after the time cell) and keep only the numeric ones. -/
def cleanLine (joint_names : List String) (line : Row) : List (String × ℚ) :=
  ((joint_names.drop 1).zip (line.drop 1)).filterMap fun p =>
    match p.2 with
    | some v => some (p.1, v)
    | none => none

/-- Lookup in the Python dict built from an association list: the last
binding of a key wins; `none` models a KeyError. -/
def dictLookup (l : List (String × ℚ)) (k : String) : Option ℚ :=
  l.reverse.lookup k

/-- The left-arm joint-name list parse_file appends to the left goal
(header order, names whose text minus the last three characters is "left"). -/
def lNames (joint_names : List String) : List String := joint_names.filter isLeftName

/-- The right-arm joint-name list parse_file appends to the right goal. -/
def rNames (joint_names : List String) : List String := joint_names.filter isRightName

/-- The header names find_start_offset iterates over: those classified as a
left-arm or a right-arm joint, in header order. -/
def selectedJoints (joint_names : List String) : List String :=
  joint_names.filter fun n => isLeftName n || isRightName n

/-- The default velocity used for a joint: the configured parameter when
present, else the source's literal 0.25. -/
def velUsed (velParam : String → Option ℚ) (n : String) : ℚ := (velParam n).getD (1/4)

/-- The current measured angle find_start_offset reads for a selected joint:
the left limb's for a left name, else the right limb's. -/
def curAngle (lAngle rAngle : String → ℚ) (n : String) : ℚ :=
  if isLeftName n then lAngle n else rAngle n

/-- find_start_offset (source lines 167-190): for every selected header
joint take |commanded - current| / default velocity and return the Python
max; `none` models the KeyError of pos[name] on a missing command or the
ValueError of max() on no selected joints. -/
def find_start_offset (joint_names : List String) (pos : String → Option ℚ)
    (lAngle rAngle : String → ℚ) (velParam : String → Option ℚ) : Option ℚ :=
  (mapAll (fun n => (pos n).map fun c =>
      |c - curAngle lAngle rAngle n| / velUsed velParam n)
    (selectedJoints joint_names)).bind pythonMax

/-- The spec's own formula for the start offset: the maximum over the arm
joints of |commanded - current| / velocity, stated directly from the spec's
words for comparison with the source's find_start_offset. -/
def specStartOffset (joint_names : List String) (cmd cur vel : String → ℚ) : Option ℚ :=
  pythonMax ((selectedJoints joint_names).map fun n => |cmd n - cur n| / vel n)

/-- Python values[0] of a cleaned row: `none` models both an empty row and a
non-numeric time cell (whose None would poison the later additions). -/
def rowTime (row : Row) : Option ℚ := row.head?.bind id

/-- The four points one data row contributes (left arm, right arm, left
gripper, right gripper), each at the recorded row time plus the start
offset; `none` models a KeyError on a missing joint or gripper command or a
bad time cell. -/
def buildRow (joint_names : List String) (start_offset : ℚ) (row : Row) :
    Option (Pt × Pt × Pt × Pt) :=
  let cmd := dictLookup (cleanLine joint_names row)
  (rowTime row).bind fun t =>
    (mapAll cmd (lNames joint_names)).bind fun lp =>
      (mapAll cmd (rNames joint_names)).bind fun rp =>
        (cmd "left_gripper").bind fun lg =>
          (cmd "right_gripper").map fun rg =>
            (⟨lp, t + start_offset⟩, ⟨rp, t + start_offset⟩,
             ⟨[lg], t + start_offset⟩, ⟨[rg], t + start_offset⟩)

/-- The parse_file loop over all data rows, accumulating the four point
lists in row order. -/
def processRows (joint_names : List String) (start_offset : ℚ) :
    List Row → Option (List Pt × List Pt × List Pt × List Pt)
  | [] => some ([], [], [], [])
  | row :: rest =>
    (buildRow joint_names start_offset row).bind fun q =>
      (processRows joint_names start_offset rest).map fun rec =>
        (q.1 :: rec.1, q.2.1 :: rec.2.1, q.2.2.1 :: rec.2.2.1, q.2.2.2 :: rec.2.2.2)

/-- Everything parse_file leaves behind in the session: the four goal
trajectories and the two timing offsets. -/
structure Parsed where
  l_points : List Pt
  r_points : List Pt
  lg_points : List Pt
  rg_points : List Pt
  slow_move_offset : ℚ
  trajectory_start_offset : ℚ
deriving DecidableEq

/-- Trajectory.parse_file (source lines 149-218) after the file has been
read and split: `joint_names` is the header row, `rows` the data rows cell
by cell. On the first data row the current pose is prepended to each arm at
time 0 and the offsets are computed; every row then contributes its four
points. `none` models any uncaught Python exception along the way. -/
def parse_file_core (joint_names : List String) (rows : List Row)
    (lAngle rAngle : String → ℚ) (velParam : String → Option ℚ) : Option Parsed :=
  match rows with
  | [] => some ⟨[], [], [], [], 0, 0⟩
  | row0 :: _ =>
    (find_start_offset joint_names (dictLookup (cleanLine joint_names row0))
        lAngle rAngle velParam).bind fun start_offset =>
      (rowTime row0).bind fun t0 =>
        (processRows joint_names start_offset rows).map fun r =>
          ⟨⟨(lNames joint_names).map lAngle, 0⟩ :: r.1,
           ⟨(rNames joint_names).map rAngle, 0⟩ :: r.2.1,
           r.2.2.1, r.2.2.2, start_offset, start_offset + t0⟩

/-! ## ResultVerifier / Canceller and session construction:
Trajectory.wait, Trajectory.stop and Trajectory.__init__
(source lines 18-38, 251-264 and 266-290). -/

/-- What Trajectory.wait computes and reports. -/
structure WaitOutcome where
  timeout : ℚ
  success : Bool
  warned : Bool
deriving DecidableEq

/-- Trajectory.wait (source lines 266-290): timeout is the slow-move offset
plus the last right-arm point's time plus the goal_time parameter (default
0) plus 1.5; success is the conjunction of both finishes and both zero
error codes; the failure warning is emitted exactly when success is
false. -/
def wait (slow_move_offset last_time : ℚ) (goal_time : Option ℚ)
    (l_finish r_finish : Bool) (l_error_code r_error_code : Int) : WaitOutcome :=
  let time_buffer := goal_time.getD 0 + 3/2
  let timeout := slow_move_offset + last_time + time_buffer
  let ok := l_finish && r_finish && (l_error_code == 0) && (r_error_code == 0)
  ⟨timeout, ok, !ok⟩

/-- What one SimpleActionClient reports to Trajectory.stop: whether a goal
handle exists (gh is not None) and the get_state() status code. -/
structure ClientState where
  gh_present : Bool
  state : Int
deriving DecidableEq

/-- actionlib.GoalStatus.ACTIVE. -/
def GoalStatusACTIVE : Int := 1

/-- The source's cancellation guard: gh is not None and get_state() is
ACTIVE. -/
def shouldCancel (c : ClientState) : Bool :=
  c.gh_present && (c.state == GoalStatusACTIVE)

/-- The externally visible things one call to Trajectory.stop can do. -/
inductive StopAction where
  | cancelLeft
  | cancelRight
  | sleep (d : ℚ)
deriving DecidableEq

/-- Trajectory.stop (source lines 251-264) as its emitted action sequence:
cancel each side exactly when its guard holds, then always the fixed 0.1
drain sleep. -/
def stop (l r : ClientState) : List StopAction :=
  (if shouldCancel l then [StopAction.cancelLeft] else []) ++
  (if shouldCancel r then [StopAction.cancelRight] else []) ++
  [StopAction.sleep (1/10)]

/-- The externally visible things Trajectory.__init__ can do towards the
two action servers. -/
inductive InitAction where
  | probeLeft (timeout : ℚ)
  | probeRight (timeout : ℚ)
  | dispatchGoal
deriving DecidableEq

/-- Trajectory.__init__ (source lines 30-38) towards the two back-ends:
probe both servers with a 10-second timeout and record whether construction
survives (it aborts the process unless both probes succeeded); no goal is
dispatched here (send_goal happens only in Trajectory.start on a
constructed object). -/
def trajectory_init (l_server_up r_server_up : Bool) : List InitAction × Bool :=
  ([InitAction.probeLeft 10, InitAction.probeRight 10],
   l_server_up && r_server_up)

/-! ## Concrete inputs used by the witnesses: the spec's own end-to-end
scenario (header time,left_s0,right_s0,left_gripper,right_gripper with rows
at recorded times 0 and 2), a variant whose first recorded time is nonzero,
and a row with a malformed left_s0 cell. -/

/-- Header of the witness recording. -/
def wJns : List String := ["time", "left_s0", "right_s0", "left_gripper", "right_gripper"]

/-- Witness data rows: times 0 and 2, arm samples 0.1 then 0.3, gripper
samples 50 then 80. -/
def wRows : List Row :=
  [[some 0, some (1/10), some (1/10), some 50, some 50],
   [some 2, some (3/10), some (3/10), some 80, some 80]]

/-- Witness current left-arm pose: every joint at 0.1. -/
def wLA : String → ℚ := fun _ => 1/10

/-- Witness current right-arm pose: every joint at 0.1. -/
def wRA : String → ℚ := fun _ => 1/10

/-- Witness parameter server: no per-joint velocity configured, so the
default 0.25 applies everywhere. -/
def wVP : String → Option ℚ := fun _ => none

/-- The session parse_file leaves behind on the witness recording. -/
def wParsed : Parsed :=
  ⟨[⟨[1/10], 0⟩, ⟨[1/10], 0⟩, ⟨[3/10], 2⟩],
   [⟨[1/10], 0⟩, ⟨[1/10], 0⟩, ⟨[3/10], 2⟩],
   [⟨[50], 0⟩, ⟨[80], 2⟩],
   [⟨[50], 0⟩, ⟨[80], 2⟩], 0, 0⟩

/-- A data row whose recorded timestamp is the nonzero 1. -/
def wRowN : Row := [some 1, some (1/2), some (1/2), some 0, some 0]

/-- A one-row witness recording whose first recorded timestamp is the
nonzero 1. -/
def wRowsN : List Row := [wRowN]

/-- Current pose for the nonzero-time witness: both arms at angle 0, so the
slow-move offset is |1/2 - 0| / (1/4) = 2. -/
def wZero : String → ℚ := fun _ => 0

/-- The session parse_file leaves behind on the nonzero-time witness
recording: slow-move offset 2, requested start offset 2 + 1 = 3. -/
def wParsedN : Parsed :=
  ⟨[⟨[0], 0⟩, ⟨[1/2], 3⟩], [⟨[0], 0⟩, ⟨[1/2], 3⟩],
   [⟨[0], 3⟩], [⟨[0], 3⟩], 2, 3⟩

/-- A data row whose left_s0 cell is malformed (try_float returned None)
while everything else is numeric. -/
def wBadRow : Row := [some 0, none, some (1/10), some 50, some 50]


theorem bisect_right_le_length (l : List ℚ) (x : ℚ) : bisect_right l x ≤ l.length := by
  induction l with
  | nil => simp [bisect_right]
  | cons a as ih =>
    simp only [bisect_right, List.length_cons]
    split
    · exact Nat.zero_le _
    · exact Nat.succ_le_succ ih

theorem bisect_right_all_le (l : List ℚ) (x : ℚ) (h : ∀ y ∈ l, y ≤ x) :
    bisect_right l x = l.length := by
  induction l with
  | nil => rfl
  | cons a as ih =>
    have ha : a ≤ x := h a (List.mem_cons_self a as)
    simp only [bisect_right, List.length_cons]
    rw [if_neg (not_lt.mpr ha)]
    exact congrArg Nat.succ (ih fun y hy => h y (List.mem_cons_of_mem a hy))

theorem bisect_right_head_lt (a : ℚ) (as : List ℚ) (x : ℚ) (h : x < a) :
    bisect_right (a :: as) x = 0 := by
  simp [bisect_right, h]

theorem bisect_right_get (l : List ℚ) (hl : l.Pairwise (· < ·)) (i : Nat) (x : ℚ)
    (hx : l.get? i = some x) : bisect_right l x = i + 1 := by
  induction l generalizing i with
  | nil => simp at hx
  | cons a as ih =>
    rcases List.pairwise_cons.mp hl with ⟨hfst, htl⟩
    cases i with
    | zero =>
      have hax : a = x := by simpa using hx
      subst hax
      simp only [bisect_right]
      rw [if_neg (lt_irrefl a)]
      have htail : bisect_right as a = 0 := by
        cases as with
        | nil => rfl
        | cons b bs =>
          exact bisect_right_head_lt b bs a (hfst b (List.mem_cons_self b bs))
      omega
    | succ j =>
      simp only [List.get?] at hx
      have hmem : x ∈ as := by
        rcases List.get?_eq_some.mp hx with ⟨hj, hg⟩
        exact hg ▸ List.get_mem as j hj
      have hax : a < x := hfst x hmem
      simp only [bisect_right]
      rw [if_neg (not_lt.mpr hax.le)]
      rw [ih htl j hx]

theorem pyGet_neg_one {α : Type} (l : List α) (h : l ≠ []) :
    pyGet l (-1) = l.getLast? := by
  have hlen : 0 < l.length := List.length_pos.mpr h
  unfold pyGet
  rw [if_neg (by norm_num), if_pos (by omega)]
  rw [List.getLast?_eq_get?]
  congr 1
  omega

theorem pyGet_isSome {α : Type} (l : List α) (i : Int)
    (h1 : -(l.length : Int) ≤ i) (h2 : i < l.length) : (pyGet l i).isSome := by
  unfold pyGet
  by_cases h0 : 0 ≤ i
  · rw [if_pos h0]
    have h : i.toNat < l.length := by omega
    rw [List.get?_eq_get h]
    rfl
  · rw [if_neg h0, if_pos (by omega)]
    have h : ((l.length : Int) + i).toNat < l.length := by omega
    rw [List.get?_eq_get h]
    rfl

theorem feedback_of_started (θ : ℚ) (s : SessionState) (t : ℚ)
    (h : s.arm_trajectory_started = true) : feedback θ s t = s := by
  unfold feedback
  rw [if_neg]
  rintro ⟨h1, -⟩
  rw [h] at h1
  exact absurd h1 (by simp)

theorem run_feedback_of_started (θ : ℚ) (s : SessionState) (ts : List ℚ)
    (h : s.arm_trajectory_started = true) : run_feedback θ s ts = s := by
  induction ts with
  | nil => rfl
  | cons t ts ih =>
    unfold run_feedback at *
    simp only [List.foldl_cons]
    rw [feedback_of_started θ s t h, ih]

/-- C1: in any session, the first feedback invocation whose reported elapsed
time reaches the requested start offset flips the flag false→true and latches
the actual offset to that reported time; every invocation after the flag is
true leaves the flag and the latch unchanged, so the flag transitions at most
once and the latched value is never overwritten. -/
theorem feedback_first_crossing_latches (θ : ℚ) (s : SessionState) (ts : List ℚ)
    (h : s.arm_trajectory_started = false) :
    (∀ (s' : SessionState) (t : ℚ), s'.arm_trajectory_started = true →
        feedback θ s' t = s') ∧
    run_feedback θ s ts =
      (match ts.find? (fun t => decide (θ ≤ t)) with
        | none => s
        | some t => ⟨true, t⟩) := by
  refine ⟨fun s' t hs' => feedback_of_started θ s' t hs', ?_⟩
  induction ts generalizing s with
  | nil => rfl
  | cons t ts ih =>
    unfold run_feedback
    simp only [List.foldl_cons, List.find?]
    by_cases hc : θ ≤ t
    · rw [decide_eq_true hc]
      have hstep : feedback θ s t = ⟨true, t⟩ := by
        unfold feedback
        rw [if_pos ⟨h, hc⟩]
      rw [hstep]
      exact run_feedback_of_started θ ⟨true, t⟩ ts rfl
    · rw [decide_eq_false hc]
      have hstep : feedback θ s t = s := by
        unfold feedback
        rw [if_neg]
        rintro ⟨-, h2⟩
        exact hc h2
      rw [hstep]
      exact ih s h

/-- Witness for C1 at a concrete session: threshold 2, reported times
1, 3, 5; the invocation reporting 3 is the first crossing and is latched. -/
theorem feedback_first_crossing_latches_witness :
    run_feedback 2 initialSession [1, 3, 5] = ⟨true, 3⟩ := by
  have h := (feedback_first_crossing_latches 2 initialSession [1, 3, 5] rfl).2
  rw [h]
  decide

/-- C2 counterexample: for the sorted non-empty time list [1, 2] and an
elapsed time 0 strictly before the first sample, the loop's computed index
bisect(pnt_times, 0) - 1 is -1, not the index 0 the claim states. -/
theorem gripper_index_before_first_ne_zero :
    gripper_index [(1 : ℚ), 2] 0 = -1 ∧ gripper_index [(1 : ℚ), 2] 0 ≠ 0 := by
  decide

/-- C2 amended: over a strictly sorted non-empty time list, an elapsed time
exactly at a sample's timestamp yields that sample's index and an elapsed
time past the last sample yields the last index, as claimed; but an elapsed
time strictly before the first sample yields index -1, which Python list
indexing resolves to the LAST point, not index 0. -/
theorem gripper_index_lookup (l : List ℚ) (hl : l.Pairwise (· < ·)) (hne : l ≠ []) :
    (∀ (i : Nat) (x : ℚ), l.get? i = some x → gripper_index l x = (i : Int)) ∧
    (∀ (x a : ℚ), l.head? = some a → x < a →
      gripper_index l x = -1 ∧
      ∀ (pts : List Pt), pts.length = l.length →
        pyGet pts (gripper_index l x) = pts.getLast?) ∧
    (∀ x : ℚ, (∀ y ∈ l, y < x) → gripper_index l x = (l.length : Int) - 1) := by
  refine ⟨?_, ?_, ?_⟩
  · intro i x hx
    unfold gripper_index
    rw [bisect_right_get l hl i x hx]
    push_cast
    ring
  · intro x a hhead hxa
    cases l with
    | nil => simp at hhead
    | cons b bs =>
      have hab : a = b := by simpa using hhead.symm
      subst hab
      have hidx : gripper_index (a :: bs) x = -1 := by
        unfold gripper_index
        rw [bisect_right_head_lt a bs x hxa]
        rfl
      refine ⟨hidx, fun pts hlen => ?_⟩
      rw [hidx]
      exact pyGet_neg_one pts (by
        intro hnil
        rw [hnil] at hlen
        simp at hlen)
  · intro x hx
    unfold gripper_index
    rw [bisect_right_all_le l x (fun y hy => (hx y hy).le)]

/-- Witness for C2's amended theorem: in the strictly sorted list [1, 2, 3]
the elapsed time 2 is exactly the timestamp at index 1 and the lookup
returns 1. -/
theorem gripper_index_lookup_witness :
    gripper_index [(1 : ℚ), 2, 3] 2 = 1 := by
  have h := (gripper_index_lookup [(1 : ℚ), 2, 3] (by decide) (by decide)).1 1 2 (by decide)
  simpa using h


theorem mapAll_eq_some_of {α β : Type} (f : α → Option β) (g : α → β) (l : List α)
    (h : ∀ a ∈ l, f a = some (g a)) : mapAll f l = some (l.map g) := by
  induction l with
  | nil => rfl
  | cons a as ih =>
    unfold mapAll
    rw [h a (List.mem_cons_self a as), ih fun b hb => h b (List.mem_cons_of_mem a hb)]
    rfl

theorem mapAll_isSome {α β : Type} (f : α → Option β) (l : List α) (bs : List β)
    (h : mapAll f l = some bs) : ∀ a ∈ l, (f a).isSome := by
  induction l generalizing bs with
  | nil => intro a ha; simp at ha
  | cons a as ih =>
    intro b hb
    unfold mapAll at h
    rcases hfa : f a with - | v
    · rw [hfa] at h; simp at h
    · rcases hrest : mapAll f as with - | vs
      · rw [hfa, hrest] at h; simp at h
      · rcases List.mem_cons.mp hb with hba | hbmem
        · subst hba; rw [hfa]; rfl
        · exact ih vs hrest b hbmem

theorem mapAll_length {α β : Type} (f : α → Option β) (l : List α) (bs : List β)
    (h : mapAll f l = some bs) : bs.length = l.length := by
  induction l generalizing bs with
  | nil =>
    unfold mapAll at h
    injection h with h
    rw [← h]
    rfl
  | cons a as ih =>
    unfold mapAll at h
    rcases hfa : f a with - | v
    · rw [hfa] at h; simp at h
    · rcases hrest : mapAll f as with - | vs
      · rw [hfa, hrest] at h; simp at h
      · rw [hfa, hrest] at h
        injection h with h
        rw [← h]
        simp [ih vs hrest]

theorem mapAll_eq_filterMap {α β : Type} (f : α → Option β) (l : List α)
    (h : ∀ a ∈ l, (f a).isSome) : mapAll f l = some (l.filterMap f) := by
  induction l with
  | nil => rfl
  | cons a as ih =>
    obtain ⟨b, hb⟩ := Option.isSome_iff_exists.mp (h a (List.mem_cons_self a as))
    unfold mapAll
    rw [hb, ih fun c hc => h c (List.mem_cons_of_mem a hc),
      List.filterMap_cons_some hb]

theorem mapAll_eq_none_of {α β : Type} (f : α → Option β) (l : List α) (a : α)
    (ha : a ∈ l) (hfa : f a = none) : mapAll f l = none := by
  induction l with
  | nil => simp at ha
  | cons b bs ih =>
    rcases List.mem_cons.mp ha with h1 | h2
    · subst h1
      cases hm : mapAll f bs <;> simp [mapAll, hfa, hm]
    · cases hfb : f b <;> simp [mapAll, hfb, ih h2]

theorem foldl_max_mem (x : ℚ) (xs : List ℚ) : xs.foldl max x ∈ x :: xs := by
  induction xs generalizing x with
  | nil => simp [List.foldl_nil]
  | cons a as ih =>
    simp only [List.foldl_cons]
    rcases List.mem_cons.mp (ih (max x a)) with h1 | h2
    · rcases max_choice x a with he | he
      · rw [h1, he]
        exact List.mem_cons_self x (a :: as)
      · rw [h1, he]
        exact List.mem_cons_of_mem x (List.mem_cons_self a as)
    · exact List.mem_cons_of_mem x (List.mem_cons_of_mem a h2)

theorem le_foldl_max (x : ℚ) (xs : List ℚ) : ∀ b ∈ x :: xs, b ≤ xs.foldl max x := by
  induction xs generalizing x with
  | nil =>
    intro b hb
    simp only [List.mem_singleton] at hb
    simp [hb]
  | cons a as ih =>
    intro b hb
    simp only [List.foldl_cons]
    rcases List.mem_cons.mp hb with h1 | h2
    · subst h1
      exact le_trans (le_max_left b a) (ih (max b a) (max b a) (List.mem_cons_self _ _))
    · rcases List.mem_cons.mp h2 with h3 | h4
      · subst h3
        exact le_trans (le_max_right x b) (ih (max x b) (max x b) (List.mem_cons_self _ _))
      · exact ih (max x a) b (List.mem_cons_of_mem _ h4)

theorem pythonMax_perm (l₁ l₂ : List ℚ) (h : l₁.Perm l₂) :
    pythonMax l₁ = pythonMax l₂ := by
  cases l₁ with
  | nil =>
    rw [(h.symm.eq_nil : l₂ = [])]
  | cons x xs =>
    cases l₂ with
    | nil => exact absurd h.eq_nil (by simp)
    | cons y ys =>
      simp only [pythonMax, Option.some.injEq]
      apply le_antisymm
      · exact le_foldl_max y ys _ (h.mem_iff.mp (foldl_max_mem x xs))
      · exact le_foldl_max x xs _ (h.mem_iff.mpr (foldl_max_mem y ys))

theorem mapAll_bind_pythonMax_perm (f : String → Option ℚ) (l₁ l₂ : List String)
    (h : l₁.Perm l₂) : (mapAll f l₁).bind pythonMax = (mapAll f l₂).bind pythonMax := by
  by_cases hall : ∀ a ∈ l₁, (f a).isSome
  · rw [mapAll_eq_filterMap f l₁ hall,
      mapAll_eq_filterMap f l₂ fun a ha => hall a (h.mem_iff.mpr ha)]
    simp only [Option.some_bind]
    exact pythonMax_perm _ _ (h.filterMap f)
  · push_neg at hall
    obtain ⟨a, ha, hfa⟩ := hall
    rw [mapAll_eq_none_of f l₁ a ha (Option.not_isSome_iff_eq_none.mp hfa),
      mapAll_eq_none_of f l₂ a (h.mem_iff.mp ha) (Option.not_isSome_iff_eq_none.mp hfa)]

/-- C4: the computed start offset is the Python max over the arm joints (in
header order) of |commanded - current| / velocity, with a joint's velocity
defaulting to 0.25 when unconfigured; it is invariant under permutation of
the header joint order, and it is 0 whenever every selected joint's
commanded position equals its current angle (velocities nonzero, as Python
division requires). -/
theorem find_start_offset_spec :
    (∀ (joint_names : List String) (pos : String → Option ℚ) (cmd lA rA : String → ℚ)
        (vp : String → Option ℚ),
      (∀ n ∈ selectedJoints joint_names, pos n = some (cmd n)) →
      find_start_offset joint_names pos lA rA vp =
        specStartOffset joint_names cmd (curAngle lA rA) (velUsed vp)) ∧
    (∀ (jns₁ jns₂ : List String) (pos : String → Option ℚ) (lA rA : String → ℚ)
        (vp : String → Option ℚ), jns₁.Perm jns₂ →
      find_start_offset jns₁ pos lA rA vp = find_start_offset jns₂ pos lA rA vp) ∧
    (∀ (joint_names : List String) (pos : String → Option ℚ) (lA rA : String → ℚ)
        (vp : String → Option ℚ),
      selectedJoints joint_names ≠ [] →
      (∀ n ∈ selectedJoints joint_names, velUsed vp n ≠ 0) →
      (∀ n ∈ selectedJoints joint_names, pos n = some (curAngle lA rA n)) →
      find_start_offset joint_names pos lA rA vp = some 0) := by
  refine ⟨?_, ?_, ?_⟩
  · intro jns pos cmd lA rA vp h
    unfold find_start_offset specStartOffset
    rw [mapAll_eq_some_of
      (fun n => (pos n).map fun c => |c - curAngle lA rA n| / velUsed vp n)
      (fun n => |cmd n - curAngle lA rA n| / velUsed vp n) (selectedJoints jns)
      (fun n hn => by simp [h n hn])]
    rfl
  · intro jns₁ jns₂ pos lA rA vp hperm
    exact mapAll_bind_pythonMax_perm _ _ _ (hperm.filter _)
  · intro jns pos lA rA vp hne hvel h
    unfold find_start_offset
    rw [mapAll_eq_some_of
      (fun n => (pos n).map fun c => |c - curAngle lA rA n| / velUsed vp n)
      (fun _ => (0 : ℚ)) (selectedJoints jns)
      (fun n hn => by simp [h n hn])]
    simp only [Option.some_bind]
    cases hsel : selectedJoints jns with
    | nil => exact absurd hsel hne
    | cons n ns =>
      simp only [List.map_cons, pythonMax, Option.some.injEq]
      rcases List.mem_cons.mp (foldl_max_mem 0 (ns.map fun _ => (0 : ℚ))) with h1 | h2
      · exact h1
      · rcases List.mem_map.mp h2 with ⟨-, -, he⟩
        exact he.symm

/-- Witness for C4: on the witness header with both arms already at the
commanded pose and no configured velocities, the start offset is 0. -/
theorem find_start_offset_spec_witness :
    find_start_offset wJns (fun n => some (curAngle wLA wRA n)) wLA wRA wVP = some 0 :=
  find_start_offset_spec.2.2 wJns (fun n => some (curAngle wLA wRA n)) wLA wRA wVP
    (by decide) (fun n _ => by norm_num [velUsed, wVP]) fun _ _ => rfl


theorem buildRow_spec (joint_names : List String) (so : ℚ) (row : Row)
    (lp rp lg rg : Pt) (h : buildRow joint_names so row = some (lp, rp, lg, rg)) :
    ∃ t : ℚ, rowTime row = some t ∧
      lp.time_from_start = t + so ∧ rp.time_from_start = t + so ∧
      lg.time_from_start = t + so ∧ rg.time_from_start = t + so ∧
      (∀ n ∈ lNames joint_names, (dictLookup (cleanLine joint_names row) n).isSome) ∧
      (∀ n ∈ rNames joint_names, (dictLookup (cleanLine joint_names row) n).isSome) ∧
      (dictLookup (cleanLine joint_names row) "left_gripper").isSome ∧
      (dictLookup (cleanLine joint_names row) "right_gripper").isSome := by
  unfold buildRow at h
  rw [Option.bind_eq_some] at h
  obtain ⟨t, ht, h⟩ := h
  rw [Option.bind_eq_some] at h
  obtain ⟨lps, hlps, h⟩ := h
  rw [Option.bind_eq_some] at h
  obtain ⟨rps, hrps, h⟩ := h
  rw [Option.bind_eq_some] at h
  obtain ⟨lgv, hlgv, h⟩ := h
  rw [Option.map_eq_some'] at h
  obtain ⟨rgv, hrgv, h⟩ := h
  simp only [Prod.mk.injEq] at h
  obtain ⟨h1, h2, h3, h4⟩ := h
  subst h1
  subst h2
  subst h3
  subst h4
  exact ⟨t, ht, rfl, rfl, rfl, rfl,
    mapAll_isSome _ _ _ hlps, mapAll_isSome _ _ _ hrps,
    by rw [hlgv]; rfl, by rw [hrgv]; rfl⟩

theorem processRows_times (joint_names : List String) (so : ℚ) (rows : List Row)
    (out : List Pt × List Pt × List Pt × List Pt)
    (h : processRows joint_names so rows = some out) :
    ∃ ts : List ℚ, mapAll rowTime rows = some ts ∧
      out.1.map Pt.time_from_start = ts.map (· + so) ∧
      out.2.1.map Pt.time_from_start = ts.map (· + so) ∧
      out.2.2.1.map Pt.time_from_start = ts.map (· + so) ∧
      out.2.2.2.map Pt.time_from_start = ts.map (· + so) ∧
      out.1.length = rows.length ∧ out.2.1.length = rows.length ∧
      out.2.2.1.length = rows.length ∧ out.2.2.2.length = rows.length := by
  induction rows generalizing out with
  | nil =>
    unfold processRows at h
    injection h with h
    subst h
    exact ⟨[], rfl, rfl, rfl, rfl, rfl, rfl, rfl, rfl, rfl⟩
  | cons row rest ih =>
    unfold processRows at h
    rw [Option.bind_eq_some] at h
    obtain ⟨q, hq, h⟩ := h
    obtain ⟨lp, rp, lg, rg⟩ := q
    rw [Option.map_eq_some'] at h
    obtain ⟨rec, hrec, h⟩ := h
    subst h
    obtain ⟨ts, hts, e1, e2, e3, e4, n1, n2, n3, n4⟩ := ih rec hrec
    obtain ⟨t, ht, q1, q2, q3, q4, -, -, -, -⟩ :=
      buildRow_spec joint_names so row lp rp lg rg hq
    refine ⟨t :: ts, ?_, ?_, ?_, ?_, ?_, ?_, ?_, ?_, ?_⟩
    · unfold mapAll
      rw [ht, hts]
    · dsimp only
      simp only [List.map_cons]
      rw [q1, e1]
    · dsimp only
      simp only [List.map_cons]
      rw [q2, e2]
    · dsimp only
      simp only [List.map_cons]
      rw [q3, e3]
    · dsimp only
      simp only [List.map_cons]
      rw [q4, e4]
    · dsimp only
      simp [n1]
    · dsimp only
      simp [n2]
    · dsimp only
      simp [n3]
    · dsimp only
      simp [n4]

theorem processRows_lookups (joint_names : List String) (so : ℚ) (rows : List Row)
    (out : List Pt × List Pt × List Pt × List Pt)
    (h : processRows joint_names so rows = some out) :
    ∀ row ∈ rows, (rowTime row).isSome ∧
      (∀ n ∈ lNames joint_names, (dictLookup (cleanLine joint_names row) n).isSome) ∧
      (∀ n ∈ rNames joint_names, (dictLookup (cleanLine joint_names row) n).isSome) ∧
      (dictLookup (cleanLine joint_names row) "left_gripper").isSome ∧
      (dictLookup (cleanLine joint_names row) "right_gripper").isSome := by
  induction rows generalizing out with
  | nil =>
    intro row hrow
    simp at hrow
  | cons r rest ih =>
    intro row hrow
    unfold processRows at h
    rw [Option.bind_eq_some] at h
    obtain ⟨q, hq, h⟩ := h
    rw [Option.map_eq_some'] at h
    obtain ⟨rec, hrec, -⟩ := h
    rcases List.mem_cons.mp hrow with h1 | h2
    · subst h1
      obtain ⟨lp, rp, lg, rg⟩ := q
      obtain ⟨t, ht, -, -, -, -, hl, hr, hlg, hrg⟩ :=
        buildRow_spec joint_names so row lp rp lg rg hq
      exact ⟨by rw [ht]; rfl, hl, hr, hlg, hrg⟩
    · exact ih rec hrec row h2

/-- C3: on any recording parse_file accepts, each arm trajectory starts with
a point at elapsed time 0 whose positions are the current-pose snapshot (not
the recorded first-row values), every later point sits at its recorded row
time plus the slow-move offset, and those later elapsed times are strictly
increasing whenever the recorded times are. -/
theorem parse_file_arm_shape (joint_names : List String) (rows : List Row)
    (lA rA : String → ℚ) (vp : String → Option ℚ) (p : Parsed)
    (hrows : rows ≠ [])
    (hp : parse_file_core joint_names rows lA rA vp = some p) :
    ∃ ts : List ℚ, mapAll rowTime rows = some ts ∧
      p.l_points.head? = some ⟨(lNames joint_names).map lA, 0⟩ ∧
      p.r_points.head? = some ⟨(rNames joint_names).map rA, 0⟩ ∧
      p.l_points.map Pt.time_from_start = 0 :: ts.map (· + p.slow_move_offset) ∧
      p.r_points.map Pt.time_from_start = 0 :: ts.map (· + p.slow_move_offset) ∧
      (ts.Pairwise (· < ·) →
        (p.l_points.map Pt.time_from_start).tail.Pairwise (· < ·) ∧
        (p.r_points.map Pt.time_from_start).tail.Pairwise (· < ·)) := by
  cases rows with
  | nil => exact absurd rfl hrows
  | cons row0 rest =>
    unfold parse_file_core at hp
    rw [Option.bind_eq_some] at hp
    obtain ⟨so, hso, hp⟩ := hp
    rw [Option.bind_eq_some] at hp
    obtain ⟨t0, ht0, hp⟩ := hp
    rw [Option.map_eq_some'] at hp
    obtain ⟨r, hr, hp⟩ := hp
    subst hp
    obtain ⟨ts, hts, e1, e2, -, -, -, -, -, -⟩ :=
      processRows_times joint_names so (row0 :: rest) r hr
    refine ⟨ts, hts, rfl, rfl, ?_, ?_, ?_⟩
    · dsimp only
      simp only [List.map_cons]
      rw [e1]
    · dsimp only
      simp only [List.map_cons]
      rw [e2]
    · intro hpw
      constructor
      · dsimp only
        simp only [List.map_cons, List.tail_cons]
        rw [e1]
        exact List.pairwise_map.mpr (hpw.imp fun hab => add_lt_add_right hab so)
      · dsimp only
        simp only [List.map_cons, List.tail_cons]
        rw [e2]
        exact List.pairwise_map.mpr (hpw.imp fun hab => add_lt_add_right hab so)

/-- Witness for C3 on the spec's end-to-end recording: both arms start at
the current pose at time 0 and the later points are at 0 and 2 (recorded
time plus zero offset). -/
theorem parse_file_arm_shape_witness :
    ∃ ts : List ℚ, mapAll rowTime wRows = some ts ∧
      wParsed.l_points.head? = some ⟨(lNames wJns).map wLA, 0⟩ ∧
      wParsed.r_points.head? = some ⟨(rNames wJns).map wRA, 0⟩ ∧
      wParsed.l_points.map Pt.time_from_start = 0 :: ts.map (· + wParsed.slow_move_offset) ∧
      wParsed.r_points.map Pt.time_from_start = 0 :: ts.map (· + wParsed.slow_move_offset) ∧
      (ts.Pairwise (· < ·) →
        (wParsed.l_points.map Pt.time_from_start).tail.Pairwise (· < ·) ∧
        (wParsed.r_points.map Pt.time_from_start).tail.Pairwise (· < ·)) :=
  parse_file_arm_shape wJns wRows wLA wRA wVP wParsed (by decide)
    (by with_unfolding_all decide)

/-- C5: whenever parse_file succeeds, the requested start offset
(_trajectory_start_offset) is exactly the slow-move offset plus the first
data row's own recorded timestamp. -/
theorem parse_file_requested_offset (joint_names : List String) (row0 : Row)
    (rest : List Row) (lA rA : String → ℚ) (vp : String → Option ℚ) (p : Parsed)
    (hp : parse_file_core joint_names (row0 :: rest) lA rA vp = some p) :
    ∃ t0 : ℚ, rowTime row0 = some t0 ∧
      p.trajectory_start_offset = p.slow_move_offset + t0 := by
  unfold parse_file_core at hp
  rw [Option.bind_eq_some] at hp
  obtain ⟨so, -, hp⟩ := hp
  rw [Option.bind_eq_some] at hp
  obtain ⟨t0, ht0, hp⟩ := hp
  rw [Option.map_eq_some'] at hp
  obtain ⟨r, -, hp⟩ := hp
  subst hp
  exact ⟨t0, ht0, rfl⟩

/-- Witness for C5 on a recording whose first recorded timestamp is the
nonzero 1: the requested start offset is the slow-move offset 2 plus 1. -/
theorem parse_file_requested_offset_witness :
    ∃ t0 : ℚ, rowTime wRowN = some t0 ∧
      wParsedN.trajectory_start_offset = wParsedN.slow_move_offset + t0 :=
  parse_file_requested_offset wJns wRowN [] wZero wZero wVP wParsedN
    (by with_unfolding_all decide)


/-- C10: on any recording parse_file accepts, the two gripper trajectories
have exactly one point per data row with identical time-from-start
sequences (each a row time plus the slow-move offset), and the index the
gripper loop computes from the right gripper's time list is always a valid
Python index into the left gripper's point list. -/
theorem parse_file_gripper_alignment (joint_names : List String) (rows : List Row)
    (lA rA : String → ℚ) (vp : String → Option ℚ) (p : Parsed)
    (hrows : rows ≠ [])
    (hp : parse_file_core joint_names rows lA rA vp = some p) :
    p.lg_points.length = rows.length ∧
    p.rg_points.length = rows.length ∧
    p.lg_points.map Pt.time_from_start = p.rg_points.map Pt.time_from_start ∧
    (∃ ts : List ℚ, mapAll rowTime rows = some ts ∧
      p.rg_points.map Pt.time_from_start = ts.map (· + p.slow_move_offset)) ∧
    ∀ x : ℚ,
      (pyGet p.lg_points (gripper_index (p.rg_points.map Pt.time_from_start) x)).isSome := by
  cases rows with
  | nil => exact absurd rfl hrows
  | cons row0 rest =>
    unfold parse_file_core at hp
    rw [Option.bind_eq_some] at hp
    obtain ⟨so, -, hp⟩ := hp
    rw [Option.bind_eq_some] at hp
    obtain ⟨t0, -, hp⟩ := hp
    rw [Option.map_eq_some'] at hp
    obtain ⟨r, hr, hp⟩ := hp
    subst hp
    obtain ⟨ts, hts, -, -, e3, e4, -, -, n3, n4⟩ :=
      processRows_times joint_names so (row0 :: rest) r hr
    dsimp only
    refine ⟨n3, n4, e3.trans e4.symm, ⟨ts, hts, e4⟩, ?_⟩
    intro x
    apply pyGet_isSome
    · unfold gripper_index
      have hb : (0 : Int) ≤ (bisect_right (r.2.2.2.map Pt.time_from_start) x : Int) :=
        Int.ofNat_nonneg _
      have hlen : 0 < r.2.2.1.length := by
        rw [n3]
        exact Nat.succ_pos _
      omega
    · unfold gripper_index
      have hb := bisect_right_le_length (r.2.2.2.map Pt.time_from_start) x
      have hmap : (r.2.2.2.map Pt.time_from_start).length = r.2.2.2.length :=
        List.length_map _ _
      have heq : r.2.2.1.length = r.2.2.2.length := n3.trans n4.symm
      omega

/-- Witness for C10 on the spec's end-to-end recording: two gripper points
per side with equal time lists and every computed index lands inside the
left gripper's points. -/
theorem parse_file_gripper_alignment_witness :
    wParsed.lg_points.length = wRows.length ∧
    wParsed.rg_points.length = wRows.length ∧
    wParsed.lg_points.map Pt.time_from_start = wParsed.rg_points.map Pt.time_from_start ∧
    (∃ ts : List ℚ, mapAll rowTime wRows = some ts ∧
      wParsed.rg_points.map Pt.time_from_start = ts.map (· + wParsed.slow_move_offset)) ∧
    ∀ x : ℚ,
      (pyGet wParsed.lg_points
        (gripper_index (wParsed.rg_points.map Pt.time_from_start) x)).isSome :=
  parse_file_gripper_alignment wJns wRows wLA wRA wVP wParsed (by decide)
    (by with_unfolding_all decide)

/-- C7 amended: _clean_line maps an empty or non-numeric cell to absent in
the row's command mapping without any error (the mapping holds exactly the
numeric cells, keyed in header order); but a successful parse_file run
requires every row's mapping to supply every used arm joint, both gripper
keys and a numeric time, so an excluded cell for a used column makes
parse_file itself fail (Python KeyError), not just drop the cell. -/
theorem clean_line_spec :
    (∀ (joint_names : List String) (row : Row) (i : Nat) (n : String) (v : ℚ),
      (joint_names.drop 1).get? i = some n →
      (row.drop 1).get? i = some (some v) →
      (n, v) ∈ cleanLine joint_names row) ∧
    (∀ (joint_names : List String) (row : Row) (q : String × ℚ),
      q ∈ cleanLine joint_names row →
      ∃ i : Nat, (joint_names.drop 1).get? i = some q.1 ∧
        (row.drop 1).get? i = some (some q.2)) ∧
    (∀ (joint_names : List String) (rows : List Row) (lA rA : String → ℚ)
        (vp : String → Option ℚ) (p : Parsed),
      parse_file_core joint_names rows lA rA vp = some p →
      ∀ row ∈ rows, (rowTime row).isSome ∧
        (∀ n ∈ lNames joint_names, (dictLookup (cleanLine joint_names row) n).isSome) ∧
        (∀ n ∈ rNames joint_names, (dictLookup (cleanLine joint_names row) n).isSome) ∧
        (dictLookup (cleanLine joint_names row) "left_gripper").isSome ∧
        (dictLookup (cleanLine joint_names row) "right_gripper").isSome) := by
  refine ⟨?_, ?_, ?_⟩
  · intro joint_names row i n v hn hv
    unfold cleanLine
    apply List.mem_filterMap.mpr
    refine ⟨(n, some v), ?_, rfl⟩
    apply List.mem_iff_get?.mpr
    exact ⟨i, (List.get?_zip_eq_some _ _ _ _).mpr ⟨hn, hv⟩⟩
  · intro joint_names row q hq
    unfold cleanLine at hq
    obtain ⟨⟨n, c⟩, hmem, hf⟩ := List.mem_filterMap.mp hq
    cases c with
    | none => simp at hf
    | some v =>
      have hf' : (n, v) = q := by simpa using hf
      subst hf'
      obtain ⟨i, hi⟩ := List.mem_iff_get?.mp hmem
      rw [List.get?_zip_eq_some] at hi
      exact ⟨i, hi.1, hi.2⟩
  · intro joint_names rows lA rA vp p hp row hrow
    cases rows with
    | nil => simp at hrow
    | cons row0 rest =>
      unfold parse_file_core at hp
      rw [Option.bind_eq_some] at hp
      obtain ⟨so, -, hp⟩ := hp
      rw [Option.bind_eq_some] at hp
      obtain ⟨t0, -, hp⟩ := hp
      rw [Option.map_eq_some'] at hp
      obtain ⟨r, hr, -⟩ := hp
      exact processRows_lookups joint_names so (row0 :: rest) r hr row hrow

/-- Witness for C7's amended theorem: in the malformed witness row the
numeric right_s0 cell at header index 1 does land in the mapping. -/
theorem clean_line_spec_witness :
    ("right_s0", (1 : ℚ)/10) ∈ cleanLine wJns wBadRow :=
  clean_line_spec.1 wJns wBadRow 1 "right_s0" (1/10) (by decide)
    (by with_unfolding_all decide)

/-- C7 counterexample: a readable, non-empty recording whose only flaw is
one malformed left_s0 cell. _clean_line drops the cell as claimed, but
parse_file as a whole fails on this file (Python KeyError on the missing
joint), contradicting the claim that only a structurally empty or
unreadable file is fatal. -/
theorem parse_file_fails_on_excluded_cell :
    cleanLine wJns wBadRow =
      [("right_s0", 1/10), ("left_gripper", 50), ("right_gripper", 50)] ∧
    parse_file_core wJns [wBadRow] wLA wRA wVP = none := by
  with_unfolding_all decide

/-- C6: wait computes its timeout as the slow-move offset plus the last arm
point's elapsed time plus 1.5 plus the goal_time parameter (default 0),
returns success exactly when both executors finished within the timeout and
both reported error code 0, and in every other combination merely reports
failure with a warning (a return value, never an exception). -/
theorem wait_spec :
    (∀ (slow last : ℚ) (gt : Option ℚ) (lf rf : Bool) (lc rc : Int),
      (wait slow last gt lf rf lc rc).timeout = slow + last + 3/2 + gt.getD 0) ∧
    (∀ (slow last : ℚ) (gt : Option ℚ) (lf rf : Bool) (lc rc : Int),
      ((wait slow last gt lf rf lc rc).success = true ↔
        (lf = true ∧ rf = true ∧ lc = 0 ∧ rc = 0))) ∧
    (∀ (slow last : ℚ) (gt : Option ℚ) (lf rf : Bool) (lc rc : Int),
      (wait slow last gt lf rf lc rc).warned = !(wait slow last gt lf rf lc rc).success) := by
  refine ⟨?_, ?_, ?_⟩
  · intro slow last gt lf rf lc rc
    show slow + last + (gt.getD 0 + 3/2) = slow + last + 3/2 + gt.getD 0
    ring
  · intro slow last gt lf rf lc rc
    show (lf && rf && (lc == 0) && (rc == 0)) = true ↔ _
    simp [Bool.and_eq_true, beq_iff_eq, and_assoc]
  · intro slow last gt lf rf lc rc
    rfl

/-- Witness for C6: both sides finished with code 0 yields success. -/
theorem wait_spec_witness :
    (wait 1 2 none true true 0 0).success = true :=
  (wait_spec.2.1 1 2 none true true 0 0).mpr ⟨rfl, rfl, rfl, rfl⟩

/-- C8: stop requests cancellation for a side exactly when that side
reports a live, ACTIVE goal, always ends with the fixed 0.1 drain sleep,
and when no goal is active it is a pure no-op apart from the sleep, so a
second immediate call adds no cancellation either. -/
theorem stop_spec :
    (∀ l r : ClientState,
      (StopAction.cancelLeft ∈ stop l r ↔ shouldCancel l = true)) ∧
    (∀ l r : ClientState,
      (StopAction.cancelRight ∈ stop l r ↔ shouldCancel r = true)) ∧
    (∀ l r : ClientState, (stop l r).getLast? = some (StopAction.sleep (1/10))) ∧
    (∀ l r : ClientState, shouldCancel l = false → shouldCancel r = false →
      stop l r = [StopAction.sleep (1/10)] ∧
      stop l r ++ stop l r = [StopAction.sleep (1/10), StopAction.sleep (1/10)]) := by
  refine ⟨?_, ?_, ?_, ?_⟩
  · intro l r
    unfold stop
    cases hl : shouldCancel l <;> cases hr : shouldCancel r <;> simp
  · intro l r
    unfold stop
    cases hl : shouldCancel l <;> cases hr : shouldCancel r <;> simp
  · intro l r
    unfold stop
    cases hl : shouldCancel l <;> cases hr : shouldCancel r <;> simp
  · intro l r hl hr
    unfold stop
    rw [hl, hr]
    exact ⟨rfl, rfl⟩

/-- Witness for C8: with no goal handle on either side, stop is just the
drain sleep, twice in a row included. -/
theorem stop_spec_witness :
    stop ⟨false, 0⟩ ⟨false, 0⟩ = [StopAction.sleep (1/10)] ∧
    stop ⟨false, 0⟩ ⟨false, 0⟩ ++ stop ⟨false, 0⟩ ⟨false, 0⟩ =
      [StopAction.sleep (1/10), StopAction.sleep (1/10)] :=
  stop_spec.2.2.2 ⟨false, 0⟩ ⟨false, 0⟩ rfl rfl

/-- C9: construction probes both action servers with a 10-second timeout
each, survives exactly when both probes succeed (otherwise the process is
torn down before anything else), and dispatches no goal to either back-end
during construction. -/
theorem init_spec :
    (∀ l r : Bool,
      (trajectory_init l r).1 = [InitAction.probeLeft 10, InitAction.probeRight 10]) ∧
    (∀ l r : Bool, ((trajectory_init l r).2 = true ↔ (l = true ∧ r = true))) ∧
    (∀ l r : Bool, InitAction.dispatchGoal ∉ (trajectory_init l r).1) := by
  refine ⟨fun l r => rfl, ?_, ?_⟩
  · intro l r
    show (l && r) = true ↔ _
    simp [Bool.and_eq_true]
  · intro l r
    show InitAction.dispatchGoal ∉ [InitAction.probeLeft 10, InitAction.probeRight 10]
    simp

/-- Witness for C9: with the right server unreachable, construction fails
even though both probes were made. -/
theorem init_spec_witness :
    (trajectory_init true false).2 ≠ true :=
  fun h => Bool.false_ne_true ((init_spec.2.1 true false).mp h).2

end TrajPlayback
